import Mathlib

/-!
Shallow embedding of the rag-guide-chat-poc ingestion and retrieval pipeline.

The Python source is embedded as executable Lean definitions:
  * `src/data_loader.py`: `extract_guide_text`, `extract_guide_images`,
    `load_and_chunk_guide`, `load_and_chunk_guide_with_media`.
  * `src/main.py`: the point-id construction and upsert of
    `rag_ingest_guide._upsert` / `process_single_guide`, and the
    catalog loop of `rag_ingest_site`.
  * `src/vector_db.py`: the aggregation loop of `QdrantStorage.search`.

External collaborators (the sentence splitter from llama_index, the uuid5
hash, the embedding provider, the Qdrant index, the network) are modelled
as explicit function parameters or as small state machines, so that every
definition stays executable.
-/

/-! ## Data model: guide documents (`src/data_loader.py`) -/

/-- One entry of a step's `media.data` list.  The Dozuki payload is a dict;
the fields read by the claims are the signed `original` URL and the
stable-size `standard` variant.  A missing key is `none`; Python truthiness
(`if url:`) additionally treats `""` as absent. -/
structure MediaItem where
  original : Option String
  standard : Option String
deriving DecidableEq, Repr

/-- A step's `media` block: `media.get("type")` and `media.get("data") or []`. -/
structure MediaBlock where
  mtype : String
  data : List MediaItem
deriving DecidableEq, Repr

/-- One entry of a step's `lines` list. -/
structure GuideLine where
  text_rendered : String
deriving DecidableEq, Repr

/-- One entry of the guide's `steps` list.  `orderby` is interpolated into an
f-string by the source, so it is modelled as its rendered text. -/
structure GuideStep where
  orderby : String
  title : String
  lines : List GuideLine
  media : Option MediaBlock
deriving DecidableEq, Repr

/-- One entry of the guide's `parts` / `tools` lists. -/
structure GuidePart where
  text : String
deriving DecidableEq, Repr

/-- A fetched guide document (`fetch_guide` response), with the fields the
embedded functions read; a missing string field is the empty string, the
`.get(..., [])` defaults make the list fields plain lists. -/
structure GuideDocument where
  title : String
  summary : String
  difficulty : String
  category : String
  introduction_rendered : String
  conclusion_rendered : String
  steps : List GuideStep
  parts : List GuidePart
  tools : List GuidePart
  url : String
deriving DecidableEq, Repr

/-- Python's `str.strip()`: drop leading and trailing whitespace.  Defined
structurally on the character list so that it evaluates on concrete inputs. -/
def pyStrip (s : String) : String :=
  String.mk (((s.data.dropWhile Char.isWhitespace).reverse.dropWhile Char.isWhitespace).reverse)

/-- The header chunk built at the top of `extract_guide_text`. -/
def headerText (g : GuideDocument) : String :=
  "Guide: " ++ g.title ++ "\nCategory: " ++ g.category ++
  "\nDifficulty: " ++ g.difficulty ++ "\nSummary: " ++ g.summary

/-- The `step_text` accumulation of `extract_guide_text`: the
`Step {orderby}: {title}` header line followed by one `- {text}` line per
non-empty rendered line. -/
def stepText (st : GuideStep) : String :=
  st.lines.foldl
    (fun acc ln => if ln.text_rendered ≠ "" then acc ++ "- " ++ ln.text_rendered ++ "\n" else acc)
    ("Step " ++ st.orderby ++ ": " ++ st.title ++ "\n")

/-- The `parts_text` accumulation of `extract_guide_text`. -/
def partsText (ps : List GuidePart) : String :=
  ps.foldl (fun acc p => acc ++ "- " ++ p.text ++ "\n") "Required Parts:\n"

/-- The `tools_text` accumulation of `extract_guide_text`. -/
def toolsText (ts : List GuidePart) : String :=
  ts.foldl (fun acc t => acc ++ "- " ++ t.text ++ "\n") "Required Tools:\n"

/-- `extract_guide_text` (src/data_loader.py, lines 61-116): header, optional
introduction, steps with non-blank text, optional conclusion, optional parts,
optional tools. -/
def extract_guide_text (g : GuideDocument) : List String :=
  [headerText g]
  ++ (if pyStrip g.introduction_rendered ≠ "" then
        ["Introduction:\n" ++ pyStrip g.introduction_rendered] else [])
  ++ g.steps.filterMap (fun st =>
        if pyStrip (stepText st) ≠ "" then some (stepText st) else none)
  ++ (if pyStrip g.conclusion_rendered ≠ "" then
        ["Conclusion:\n" ++ pyStrip g.conclusion_rendered] else [])
  ++ (if g.parts ≠ [] then [partsText g.parts] else [])
  ++ (if g.tools ≠ [] then [toolsText g.tools] else [])

/-- The per-step image collection of `extract_guide_images`
(src/data_loader.py, lines 142-152): when the media block exists and has type
`"image"`, keep each data entry's `original` URL when it is truthy. -/
def stepImages (st : GuideStep) : List String :=
  match st.media with
  | none => []
  | some m =>
    if m.mtype = "image" then
      m.data.filterMap (fun item =>
        match item.original with
        | some u => if u ≠ "" then some u else none
        | none => none)
    else []

/-- `extract_guide_images` (src/data_loader.py, lines 119-167): one image list
per section, mirroring the section order of `extract_guide_text`, with every
step contributing its `stepImages`. -/
def extract_guide_images (g : GuideDocument) : List (List String) :=
  [([] : List String)]
  ++ (if pyStrip g.introduction_rendered ≠ "" then [[]] else [])
  ++ g.steps.map stepImages
  ++ (if pyStrip g.conclusion_rendered ≠ "" then [[]] else [])
  ++ (if g.parts ≠ [] then [[]] else [])
  ++ (if g.tools ≠ [] then [[]] else [])

/-- The section-splitting loop of `load_and_chunk_guide`
(src/data_loader.py, lines 198-204): a section longer than 1000 characters is
replaced by the splitter's output, a shorter one is kept as-is.  The llama
index `SentenceSplitter` is external and passed in as `split`. -/
def chunkSections (split : String → List String) : List String → List String
  | [] => []
  | s :: rest =>
    (if 1000 < s.length then split s else [s]) ++ chunkSections split rest

/-- `load_and_chunk_guide` (src/data_loader.py, lines 192-205) after the fetch:
extract the text sections and split the long ones. -/
def load_and_chunk_guide (split : String → List String) (g : GuideDocument) : List String :=
  chunkSections split (extract_guide_text g)

/-- The optional guide metadata of `load_and_chunk_guide_with_media`. -/
structure GuideMeta where
  guide_title : Option String
  guide_url : Option String
deriving DecidableEq, Repr

/-- The per-section loop of `load_and_chunk_guide_with_media`
(src/data_loader.py, lines 237-247): long sections are split and their image
list is replicated verbatim onto every sub-chunk; short sections are emitted
unchanged with their image list. -/
def chunkPairs (split : String → List String) :
    List (String × List String) → List String × List (List String)
  | [] => ([], [])
  | (s, imgs) :: rest =>
    let r := chunkPairs split rest
    if 1000 < s.length then
      (split s ++ r.1, (split s).map (fun _ => imgs) ++ r.2)
    else
      (s :: r.1, imgs :: r.2)

/-- `load_and_chunk_guide_with_media` (src/data_loader.py, lines 213-249) after
the fetch: extract text and image sections, truncate both to the shorter
length, then run the splitting loop. -/
def load_and_chunk_guide_with_media (split : String → List String) (g : GuideDocument) :
    List String × List (List String) × GuideMeta :=
  let text_sections := extract_guide_text g
  let image_sections := extract_guide_images g
  let meta : GuideMeta :=
    { guide_title := if g.title ≠ "" then some g.title else none
      guide_url := if g.url ≠ "" then some g.url else none }
  let max_len := min text_sections.length image_sections.length
  let r := chunkPairs split ((text_sections.take max_len).zip (image_sections.take max_len))
  (r.1, r.2, meta)

/-- The splitting loop keeps the chunk list and the image list in lockstep. -/
theorem chunkPairs_length (split : String → List String) :
    ∀ l : List (String × List String),
      (chunkPairs split l).1.length = (chunkPairs split l).2.length := by
  intro l
  induction l with
  | nil => rfl
  | cons p rest ih =>
    obtain ⟨s, imgs⟩ := p
    by_cases h : 1000 < s.length <;>
      simp [chunkPairs, h, ih]

/-- C1: for every guide document and every splitter, the chunk list and the
per-chunk image list returned by `load_and_chunk_guide_with_media` have equal
length. -/
theorem chunks_align_with_images (split : String → List String) (g : GuideDocument) :
    (load_and_chunk_guide_with_media split g).1.length =
      (load_and_chunk_guide_with_media split g).2.1.length := by
  unfold load_and_chunk_guide_with_media
  exact chunkPairs_length split _

/-! ## C8: split sections replicate their image list -/

/-- C8: inside the splitting loop, a section longer than 1000 characters is
replaced by the splitter's sub-chunks (at least two of them, for a splitter
honouring the 1000-character target), each paired with an image list equal to
the parent section's; a section of at most 1000 characters is emitted as
exactly one chunk, unchanged, with its image list. -/
theorem split_sections_replicate_images (split : String → List String)
    (s : String) (imgs : List String) (rest : List (String × List String))
    (hsplit : ∀ t, 1000 < t.length → 2 ≤ (split t).length) :
    (1000 < s.length →
      (chunkPairs split ((s, imgs) :: rest)).1 = split s ++ (chunkPairs split rest).1 ∧
      (chunkPairs split ((s, imgs) :: rest)).2 =
        (split s).map (fun _ => imgs) ++ (chunkPairs split rest).2 ∧
      2 ≤ (split s).length ∧
      ∀ l ∈ (split s).map (fun _ => imgs), l = imgs) ∧
    (s.length ≤ 1000 →
      chunkPairs split ((s, imgs) :: rest) =
        (s :: (chunkPairs split rest).1, imgs :: (chunkPairs split rest).2)) := by
  constructor
  · intro hlen
    refine ⟨?_, ?_, hsplit s hlen, ?_⟩
    · simp [chunkPairs, hlen]
    · simp [chunkPairs, hlen]
    · intro l hl
      simp only [List.mem_map] at hl
      obtain ⟨t, _, rfl⟩ := hl
      rfl
  · intro hlen
    have h : ¬ 1000 < s.length := by omega
    simp [chunkPairs, h]

/-- A 1001-character section used to exercise the long-section branch. -/
def longSection : String := String.mk (List.replicate 1001 'x')

/-- A splitter stub that always produces two sub-chunks. -/
def twoWaySplit : String → List String := fun t => [t.take 600, t.drop 400]

/-- A 1001-character string has length 1001. -/
theorem longSection_length : longSection.length = 1001 := by
  show (List.replicate 1001 'x').length = 1001
  rw [List.length_replicate]

/-- Witness for C8 at a concrete 1001-character section. -/
theorem split_sections_replicate_images_witness :
    1000 < longSection.length ∧
    ((1000 < longSection.length →
      (chunkPairs twoWaySplit [(longSection, ["img.png"])]).1 =
        twoWaySplit longSection ++ (chunkPairs twoWaySplit []).1 ∧
      (chunkPairs twoWaySplit [(longSection, ["img.png"])]).2 =
        (twoWaySplit longSection).map (fun _ => ["img.png"]) ++ (chunkPairs twoWaySplit []).2 ∧
      2 ≤ (twoWaySplit longSection).length ∧
      ∀ l ∈ (twoWaySplit longSection).map (fun _ => ["img.png"]), l = ["img.png"]) ∧
    (longSection.length ≤ 1000 →
      chunkPairs twoWaySplit [(longSection, ["img.png"])] =
        (longSection :: (chunkPairs twoWaySplit []).1,
         ["img.png"] :: (chunkPairs twoWaySplit []).2))) :=
  ⟨by rw [longSection_length]; omega,
   split_sections_replicate_images twoWaySplit longSection ["img.png"] []
     (fun t _ => by simp [twoWaySplit])⟩

/-! ## C9: the chunk list is never empty -/

/-- Outcome of `process_single_guide` (src/main.py, lines 341-359) after the
fetch: the `if not chunks` early return, or an upsert of every chunk. -/
inductive SingleGuideOutcome where
  | zeroChunks
  | upserted (count : Nat)
deriving DecidableEq, Repr

/-- The chunk-count control flow of `process_single_guide`: load and chunk the
guide, return the zero-chunk marker when the list is empty, otherwise upsert
all chunks and report their number. -/
def process_single_guide (split : String → List String) (g : GuideDocument) :
    SingleGuideOutcome :=
  let chunks := load_and_chunk_guide split g
  if chunks.isEmpty then .zeroChunks else .upserted chunks.length

/-- The synthesized header section is never the empty string. -/
theorem headerText_ne_empty (g : GuideDocument) : headerText g ≠ "" := by
  intro h
  have hlen := congrArg String.length h
  simp only [headerText] at hlen
  simp only [String.length_append] at hlen
  have h7 : ("Guide: " : String).length = 7 := rfl
  have h0 : ("" : String).length = 0 := rfl
  rw [h7, h0] at hlen
  omega

/-- C9: `extract_guide_text` always emits the synthesized header first, so for
any splitter that never maps a non-empty string to an empty list, the chunk
list of `load_and_chunk_guide` is non-empty and the zero-chunk early return of
`process_single_guide` is unreachable. -/
theorem chunks_never_empty (split : String → List String) (g : GuideDocument)
    (hsplit : ∀ s, s ≠ "" → split s ≠ []) :
    load_and_chunk_guide split g ≠ [] ∧
    process_single_guide split g ≠ .zeroChunks := by
  have hne : load_and_chunk_guide split g ≠ [] := by
    unfold load_and_chunk_guide extract_guide_text
    intro h
    rw [List.cons_append] at h
    simp only [chunkSections] at h
    rcases List.append_eq_nil.mp h with ⟨h1, _⟩
    by_cases hlong : 1000 < (headerText g).length
    · rw [if_pos hlong] at h1
      exact hsplit (headerText g) (headerText_ne_empty g) h1
    · rw [if_neg hlong] at h1
      exact List.cons_ne_nil _ _ h1
  refine ⟨hne, ?_⟩
  unfold process_single_guide
  rw [if_neg (by simpa [List.isEmpty_iff] using hne)]
  intro h
  exact SingleGuideOutcome.noConfusion h

/-- Witness for C9 on an entirely empty guide document and a splitter stub. -/
theorem chunks_never_empty_witness :
    load_and_chunk_guide (fun t => [t]) ⟨"", "", "", "", "", "", [], [], [], ""⟩ ≠ [] ∧
    process_single_guide (fun t => [t]) ⟨"", "", "", "", "", "", [], [], [], ""⟩ ≠ .zeroChunks :=
  chunks_never_empty (fun t => [t]) ⟨"", "", "", "", "", "", [], [], [], ""⟩
    (fun _ _ => by simp)

/-! ## C7: image-URL preference -/

/-- Modelled from the spec: the spec's step-image extraction prefers the
stable-size URL field (`standard`) over the signed `original` field when both
exist; the repository's `extract_guide_images` is the authority being checked
against this. -/
def stepImagesStablePreferred (st : GuideStep) : List String :=
  match st.media with
  | none => []
  | some m =>
    if m.mtype = "image" then
      m.data.filterMap (fun item =>
        match item.standard with
        | some u =>
          if u ≠ "" then some u
          else match item.original with
               | some v => if v ≠ "" then some v else none
               | none => none
        | none =>
          match item.original with
          | some v => if v ≠ "" then some v else none
          | none => none)
    else []

/-- A media entry that carries both a signed `original` URL and a stable-size
`standard` URL. -/
def bothUrlsItem : MediaItem :=
  { original := some "https://cdn.example.com/orig.jpg"
    standard := some "https://cdn.example.com/standard.jpg" }

/-- A step whose media block has type `"image"` and one two-URL entry. -/
def bothUrlsStep : GuideStep :=
  { orderby := "1", title := "Attach", lines := []
    media := some { mtype := "image", data := [bothUrlsItem] } }

/-- C7 (code bug): on a media entry carrying both URL fields, the code's
extraction (`stepImages`, reading only `original`) returns the signed URL,
while the documented stable-size preference returns the `standard` URL; the
two extractions differ, and `extract_guide_images` propagates the signed URL
for the step section. -/
theorem stepImages_prefers_original :
    stepImages bothUrlsStep = ["https://cdn.example.com/orig.jpg"] ∧
    stepImagesStablePreferred bothUrlsStep = ["https://cdn.example.com/standard.jpg"] ∧
    stepImages bothUrlsStep ≠ stepImagesStablePreferred bothUrlsStep ∧
    extract_guide_images ⟨"T", "", "", "", "", "", [bothUrlsStep], [], [], ""⟩ =
      [[], ["https://cdn.example.com/orig.jpg"]] := by
  refine ⟨rfl, rfl, by decide, rfl⟩

/-! ## C2: deterministic point ids and idempotent ingestion -/

/-- The payload built for each chunk by `rag_ingest_guide._upsert` and
`process_single_guide` (src/main.py, lines 152-153, 352-353). -/
structure UpsertPayload where
  source : String
  text : String
  guide_id : Nat
deriving DecidableEq, Repr

/-- The deterministic point-id list of src/main.py (lines 150-151 and
350-351): one id per chunk index, the stable name-based hash of
`f"{source_id}:{i}"`.  The uuid5 hash itself is an external library
function and is passed in as `uuid5`. -/
def pointIds (uuid5 : String → String) (source_id : String) (chunks : List String) :
    List String :=
  (List.range chunks.length).map (fun i => uuid5 (source_id ++ ":" ++ toString i))

/-- The (id, payload) batch handed to `QdrantStorage.upsert` by
`process_single_guide`. -/
def pointBatch (uuid5 : String → String) (source_id : String) (chunks : List String)
    (gid : Nat) : List (String × UpsertPayload) :=
  (List.range chunks.length).map
    (fun i => (uuid5 (source_id ++ ":" ++ toString i),
               { source := source_id, text := chunks.getD i "", guide_id := gid }))

/-- Modelled from the spec: the vector index (an external collaborator,
`QdrantStorage.upsert` / Qdrant) keeps one point per id — upserting an id
that is already present overwrites that point, a fresh id is appended
(spec §3: deterministic ids make re-ingestion "overwrite rather than
duplicate"). -/
def upsertPoint {P : Type} (store : List (String × P)) (pid : String) (p : P) :
    List (String × P) :=
  if pid ∈ store.map Prod.fst then
    store.map (fun e => if e.1 = pid then (pid, p) else e)
  else
    store ++ [(pid, p)]

/-- Upserting a batch of points, one after the other, as one
`QdrantStorage.upsert` call does. -/
def upsertBatch {P : Type} (store : List (String × P)) (pts : List (String × P)) :
    List (String × P) :=
  pts.foldl (fun st pt => upsertPoint st pt.1 pt.2) store

/-- Overwriting an existing id leaves the stored id list unchanged. -/
theorem upsertPoint_keys_of_mem {P : Type} (store : List (String × P)) (pid : String)
    (p : P) (h : pid ∈ store.map Prod.fst) :
    (upsertPoint store pid p).map Prod.fst = store.map Prod.fst := by
  unfold upsertPoint
  rw [if_pos h, List.map_map]
  refine List.map_congr_left ?_
  intro e _
  by_cases he : e.1 = pid
  · simp [he]
  · simp [he]

/-- Overwriting an existing id keeps the store size. -/
theorem upsertPoint_length_of_mem {P : Type} (store : List (String × P)) (pid : String)
    (p : P) (h : pid ∈ store.map Prod.fst) :
    (upsertPoint store pid p).length = store.length := by
  unfold upsertPoint
  rw [if_pos h, List.length_map]

/-- Inserting a fresh id appends it. -/
theorem upsertPoint_keys_of_not_mem {P : Type} (store : List (String × P)) (pid : String)
    (p : P) (h : pid ∉ store.map Prod.fst) :
    (upsertPoint store pid p).map Prod.fst = store.map Prod.fst ++ [pid] := by
  unfold upsertPoint
  rw [if_neg h, List.map_append]
  rfl

/-- Inserting a fresh id grows the store by one. -/
theorem upsertPoint_length_of_not_mem {P : Type} (store : List (String × P)) (pid : String)
    (p : P) (h : pid ∉ store.map Prod.fst) :
    (upsertPoint store pid p).length = store.length + 1 := by
  unfold upsertPoint
  rw [if_neg h, List.length_append]
  rfl

/-- A batch of pairwise-fresh, pairwise-distinct ids grows the store by the
batch size, and the stored ids afterwards are the old ids plus the batch ids. -/
theorem upsertBatch_fresh {P : Type} :
    ∀ (pts store : List (String × P)),
      (pts.map Prod.fst).Nodup →
      (∀ k ∈ pts.map Prod.fst, k ∉ store.map Prod.fst) →
      (upsertBatch store pts).length = store.length + pts.length ∧
      ∀ k, k ∈ (upsertBatch store pts).map Prod.fst ↔
        k ∈ store.map Prod.fst ∨ k ∈ pts.map Prod.fst := by
  intro pts
  induction pts with
  | nil =>
    intro store _ _
    exact ⟨rfl, fun k => by simp [upsertBatch]⟩
  | cons pt rest ih =>
    intro store hnd hfresh
    have hpt : pt.1 ∉ store.map Prod.fst := hfresh pt.1 (by simp)
    have hnd2 : (pt.1 :: rest.map Prod.fst).Nodup := by
      rw [List.map_cons] at hnd
      exact hnd
    have hnd' : (rest.map Prod.fst).Nodup := (List.nodup_cons.mp hnd2).2
    have hpt_rest : pt.1 ∉ rest.map Prod.fst := (List.nodup_cons.mp hnd2).1
    have hfresh' : ∀ k ∈ rest.map Prod.fst, k ∉ (upsertPoint store pt.1 pt.2).map Prod.fst := by
      intro k hk
      rw [upsertPoint_keys_of_not_mem store pt.1 pt.2 hpt]
      intro hmem
      rcases List.mem_append.mp hmem with h | h
      · exact hfresh k (by simp [hk]) h
      · rcases List.mem_singleton.mp h with rfl
        exact hpt_rest hk
    have hstep : upsertBatch store (pt :: rest) = upsertBatch (upsertPoint store pt.1 pt.2) rest := rfl
    obtain ⟨ihlen, ihmem⟩ := ih (upsertPoint store pt.1 pt.2) hnd' hfresh'
    constructor
    · rw [hstep, ihlen, upsertPoint_length_of_not_mem store pt.1 pt.2 hpt]
      simp [Nat.add_assoc, Nat.add_comm 1 rest.length]
    · intro k
      rw [hstep, ihmem k, upsertPoint_keys_of_not_mem store pt.1 pt.2 hpt]
      simp only [List.mem_append, List.mem_singleton, List.map_cons, List.mem_cons]
      tauto

/-- A batch whose ids are all already stored overwrites in place: the store
size and the stored id list do not change. -/
theorem upsertBatch_overwrite {P : Type} :
    ∀ (pts store : List (String × P)),
      (∀ k ∈ pts.map Prod.fst, k ∈ store.map Prod.fst) →
      (upsertBatch store pts).length = store.length ∧
      (upsertBatch store pts).map Prod.fst = store.map Prod.fst := by
  intro pts
  induction pts with
  | nil => intro store _; exact ⟨rfl, rfl⟩
  | cons pt rest ih =>
    intro store hmem
    have hpt : pt.1 ∈ store.map Prod.fst := hmem pt.1 (by simp)
    have hkeys := upsertPoint_keys_of_mem store pt.1 pt.2 hpt
    have hmem' : ∀ k ∈ rest.map Prod.fst, k ∈ (upsertPoint store pt.1 pt.2).map Prod.fst := by
      intro k hk
      rw [hkeys]
      exact hmem k (by simp [hk])
    have hstep : upsertBatch store (pt :: rest) = upsertBatch (upsertPoint store pt.1 pt.2) rest := rfl
    obtain ⟨ihlen, ihkeys⟩ := ih (upsertPoint store pt.1 pt.2) hmem'
    constructor
    · rw [hstep, ihlen, upsertPoint_length_of_mem store pt.1 pt.2 hpt]
    · rw [hstep, ihkeys, hkeys]

/-- The ids of a point batch are exactly the deterministic point ids. -/
theorem pointBatch_keys (uuid5 : String → String) (source_id : String)
    (chunks : List String) (gid : Nat) :
    (pointBatch uuid5 source_id chunks gid).map Prod.fst = pointIds uuid5 source_id chunks := by
  unfold pointBatch pointIds
  rw [List.map_map]
  rfl

/-- C2: point ids are a deterministic function of the source identifier and
the chunk index — two ingestion runs over the same `source_id` with the same
chunk count produce identical id lists — and, provided the stable hash does
not collide on the names `f"{source_id}:{i}"` below the chunk count, running
the single-guide upsert twice against an initially empty index leaves exactly
`chunks.length` points, not twice as many. -/
theorem point_ids_idempotent (uuid5 : String → String) (source_id : String)
    (chunks chunks' : List String) (gid gid' : Nat)
    (hlen : chunks.length = chunks'.length)
    (hinj : ∀ i, i < chunks.length → ∀ j, j < chunks.length →
      uuid5 (source_id ++ ":" ++ toString i) = uuid5 (source_id ++ ":" ++ toString j) → i = j) :
    pointIds uuid5 source_id chunks = pointIds uuid5 source_id chunks' ∧
    (upsertBatch (upsertBatch ([] : List (String × UpsertPayload))
        (pointBatch uuid5 source_id chunks gid))
        (pointBatch uuid5 source_id chunks gid')).length = chunks.length := by
  constructor
  · unfold pointIds
    rw [hlen]
  · have hnd : ((pointBatch uuid5 source_id chunks gid).map Prod.fst).Nodup := by
      rw [pointBatch_keys]
      unfold pointIds
      refine List.Nodup.map_on ?_ (List.nodup_range _)
      intro i hi j hj hij
      exact hinj i (List.mem_range.mp hi) j (List.mem_range.mp hj) hij
    have hfresh : ∀ k ∈ (pointBatch uuid5 source_id chunks gid).map Prod.fst,
        k ∉ (([] : List (String × UpsertPayload)).map Prod.fst) := by
      intro k _ hk
      simp at hk
    obtain ⟨h1len, h1mem⟩ := upsertBatch_fresh (pointBatch uuid5 source_id chunks gid) [] hnd hfresh
    have hcover : ∀ k ∈ (pointBatch uuid5 source_id chunks gid').map Prod.fst,
        k ∈ (upsertBatch ([] : List (String × UpsertPayload))
              (pointBatch uuid5 source_id chunks gid)).map Prod.fst := by
      intro k hk
      rw [pointBatch_keys] at hk
      refine (h1mem k).mpr (Or.inr ?_)
      rw [pointBatch_keys]
      exact hk
    obtain ⟨h2len, _⟩ := upsertBatch_overwrite (pointBatch uuid5 source_id chunks gid')
      (upsertBatch ([] : List (String × UpsertPayload)) (pointBatch uuid5 source_id chunks gid)) hcover
    rw [h2len, h1len]
    unfold pointBatch
    simp

/-- Witness for C2: three chunks under source id `"hansaw_guide_7"` with the
identity function standing in for the collision-free hash. -/
theorem point_ids_idempotent_witness :
    (["a", "b", "c"] : List String).length = (["d", "e", "f"] : List String).length ∧
    (pointIds (fun s => s) "hansaw_guide_7" ["a", "b", "c"] =
       pointIds (fun s => s) "hansaw_guide_7" ["d", "e", "f"] ∧
     (upsertBatch (upsertBatch ([] : List (String × UpsertPayload))
         (pointBatch (fun s => s) "hansaw_guide_7" ["a", "b", "c"] 7))
         (pointBatch (fun s => s) "hansaw_guide_7" ["a", "b", "c"] 7)).length =
       (["a", "b", "c"] : List String).length) :=
  ⟨rfl, point_ids_idempotent (fun s => s) "hansaw_guide_7" ["a", "b", "c"] ["d", "e", "f"] 7 7
    rfl (by decide)⟩

/-! ## C4: retrieval aggregation (`QdrantStorage.search`, src/vector_db.py) -/

/-- The payload of one scored point returned by the index, with the fields the
aggregation loop reads; `.get` defaults make `text`/`source` strings and leave
the rest optional. -/
structure ScoredPayload where
  text : String
  source : String
  guide_id : Option Int
  images : Option (List String)
  guide_title : Option String
  guide_url : Option String
deriving DecidableEq, Repr

/-- One record of the `guide_info` list built per kept point. -/
structure GuideInfoEntry where
  guide_id : Option Int
  title : Option String
  url : Option String
  source : String
deriving DecidableEq, Repr

/-- The accumulator of the aggregation loop: `contexts`, the `sources` and
`guide_ids` sets (modelled as insertion-ordered duplicate-free lists),
`images_per_context` and `guide_info`. -/
structure SearchAgg where
  contexts : List String
  sources : List String
  guide_ids : List Int
  images_per_context : List (List String)
  guide_info : List GuideInfoEntry
deriving DecidableEq, Repr

/-- Python `set.add`: insert unless already present. -/
def addToSet {α : Type} [DecidableEq α] (l : List α) (a : α) : List α :=
  if a ∈ l then l else l ++ [a]

/-- One iteration of the `for r in results` loop of `QdrantStorage.search`
(src/vector_db.py, lines 59-81): skip the point when `text` is empty,
otherwise append the context, add the source, add a truthy guide id, append
the guide-info record and the coerced image list. -/
def searchStep (acc : SearchAgg) (p : ScoredPayload) : SearchAgg :=
  if p.text ≠ "" then
    { contexts := acc.contexts ++ [p.text]
      sources := addToSet acc.sources p.source
      guide_ids :=
        match p.guide_id with
        | some gidv => if gidv ≠ 0 then addToSet acc.guide_ids gidv else acc.guide_ids
        | none => acc.guide_ids
      images_per_context :=
        acc.images_per_context ++ [(p.images.getD []).filter (fun u => u ≠ "")]
      guide_info :=
        acc.guide_info ++
          [{ guide_id := p.guide_id, title := p.guide_title, url := p.guide_url,
             source := p.source }] }
  else acc

/-- The aggregation of `QdrantStorage.search` (src/vector_db.py, lines 53-89)
over the scored points returned by the index. -/
def search (results : List ScoredPayload) : SearchAgg :=
  results.foldl searchStep
    { contexts := [], sources := [], guide_ids := [], images_per_context := [], guide_info := [] }

/-- `addToSet` never introduces a duplicate. -/
theorem addToSet_nodup {α : Type} [DecidableEq α] (l : List α) (a : α) (h : l.Nodup) :
    (addToSet l a).Nodup := by
  unfold addToSet
  split
  · exact h
  · rename_i ha
    exact ((List.perm_append_singleton a l).nodup_iff).mpr (List.nodup_cons.mpr ⟨ha, h⟩)

/-- The loop invariant of the aggregation: aligned lengths and duplicate-free
sets, preserved by each iteration. -/
def SearchAggOk (acc : SearchAgg) : Prop :=
  acc.contexts.length = acc.images_per_context.length ∧
  acc.contexts.length = acc.guide_info.length ∧
  acc.sources.Nodup ∧
  acc.guide_ids.Nodup

/-- Each iteration of the aggregation loop preserves the invariant. -/
theorem searchStep_ok (acc : SearchAgg) (p : ScoredPayload) (h : SearchAggOk acc) :
    SearchAggOk (searchStep acc p) := by
  obtain ⟨h1, h2, h3, h4⟩ := h
  unfold searchStep SearchAggOk
  split
  · refine ⟨?_, ?_, addToSet_nodup _ _ h3, ?_⟩
    · simp [h1]
    · simp [h2]
    · match p.guide_id with
      | some gidv =>
        by_cases hz : gidv ≠ 0
        · simpa [hz] using addToSet_nodup _ _ h4
        · simpa [hz] using h4
      | none => exact h4
  · exact ⟨h1, h2, h3, h4⟩

/-- C4: for every batch of scored points, the aggregation of
`QdrantStorage.search` returns equally many contexts, per-context image lists
and guide-info records, and its `sources` and `guide_ids` collections contain
no duplicate elements. -/
theorem search_aligned_and_deduplicated (results : List ScoredPayload) :
    (search results).contexts.length = (search results).images_per_context.length ∧
    (search results).contexts.length = (search results).guide_info.length ∧
    (search results).sources.Nodup ∧
    (search results).guide_ids.Nodup := by
  have main : ∀ (rs : List ScoredPayload) (acc : SearchAgg), SearchAggOk acc →
      SearchAggOk (rs.foldl searchStep acc) := by
    intro rs
    induction rs with
    | nil => intro acc h; exact h
    | cons p rest ih =>
      intro acc h
      exact ih (searchStep acc p) (searchStep_ok acc p h)
  exact main results _ ⟨rfl, rfl, List.nodup_nil, List.nodup_nil⟩

/-! ## The ingestion saga (`rag_ingest_site`, src/main.py lines 173-338) -/

/-- One guide summary from the catalog listing; the loop reads `guideid` and
`title`. -/
structure GuideSummary where
  guideid : Option Nat
  title : String
deriving DecidableEq, Repr

/-- One entry of the saga's error list (src/main.py, lines 295-299). -/
structure ErrEntry where
  guide_id : Nat
  title : String
  error : String
deriving DecidableEq, Repr

/-- The progress events the saga emits via `step.send_event`, with the numeric
payload fields the claims are about. -/
inductive SagaEv where
  | fetching (total_guides : Nat)
  | processing (guide_id processed_guides total_chunks total_guides : Nat)
  | errored (guide_id processed_guides failed_guides : Nat)
  | pausedEv (processed_guides resume_offset total_guides : Nat)
  | completedEv (total_guides processed_guides failed_guides total_chunks : Nat)
      (errors : List ErrEntry)
deriving DecidableEq, Repr

/-- The value returned by `rag_ingest_site`: the paused state (src/main.py,
lines 260-265) or the completed summary (lines 332-338). -/
inductive SagaResult where
  | paused (processed_guides resume_offset total_guides : Nat)
  | completed (processed_guides failed_guides total_chunks : Nat) (errors : List ErrEntry)
deriving DecidableEq, Repr

/-- The loop state of the saga: the accumulators of src/main.py lines 224-226
plus the emitted events, and two ghost traces — `visited` records every
catalog index the loop iteration reached, `attempted` records the indices for
which `process_single_guide` was invoked. -/
structure LoopState where
  processed : Nat
  total_chunks : Nat
  errors : List ErrEntry
  events : List SagaEv
  visited : List Nat
  attempted : List Nat
deriving DecidableEq, Repr

/-- The state at the top of the processing loop, after the `fetching` progress
event has been emitted. -/
def initState (total : Nat) : LoopState :=
  { processed := 0, total_chunks := 0, errors := [], events := [SagaEv.fetching total],
    visited := [], attempted := [] }

/-- The processing loop of `rag_ingest_site` (src/main.py, lines 230-338) over
the indexed remainder of the catalog.  `run gid` is the checkpointed
`process_single_guide` call (an external effect: fetch, embed, upsert),
returning a chunk count or an error message; `pause i` is the outcome of the
`wait_for_event` pause check performed at loop index `i`.  Per the source: a
guide without an id is skipped; the pause signal is polled only when
`i > 0 and i % 5 == 0`, and a detected pause returns the current index as
`resume_offset`; a failed guide is recorded and the loop continues. -/
def sagaLoop (run : Nat → Except String Nat) (pause : Nat → Bool) (total : Nat) :
    List (Nat × GuideSummary) → LoopState → SagaResult × LoopState
  | [], st =>
    (.completed st.processed st.errors.length st.total_chunks st.errors,
     { st with events := st.events ++
         [.completedEv total st.processed st.errors.length st.total_chunks st.errors] })
  | (i, g) :: rest, st =>
    let st1 := { st with visited := st.visited ++ [i] }
    match g.guideid with
    | none => sagaLoop run pause total rest st1
    | some gid =>
      if 0 < i ∧ i % 5 = 0 ∧ pause i = true then
        (.paused st1.processed i total,
         { st1 with events := st1.events ++ [.pausedEv st1.processed i total] })
      else
        match run gid with
        | .ok n =>
          sagaLoop run pause total rest
            { st1 with processed := st1.processed + 1,
                       total_chunks := st1.total_chunks + n,
                       attempted := st1.attempted ++ [i],
                       events := st1.events ++
                         [.processing gid (st1.processed + 1) (st1.total_chunks + n) total] }
        | .error e =>
          sagaLoop run pause total rest
            { st1 with errors := st1.errors ++ [⟨gid, g.title, e⟩],
                       attempted := st1.attempted ++ [i],
                       events := st1.events ++
                         [.errored gid st1.processed (st1.errors.length + 1)] }

/-- `rag_ingest_site` from the point where the catalog list is known: iterate
the guides from `resume_offset` to the end of the catalog. -/
def rag_ingest_site (guides : List GuideSummary) (run : Nat → Except String Nat)
    (pause : Nat → Bool) (resume_offset : Nat) : SagaResult × LoopState :=
  sagaLoop run pause guides.length (guides.enum.drop resume_offset)
    (initState guides.length)

/-- Whether a catalog entry carries a guide id. -/
def hasId (g : GuideSummary) : Bool := g.guideid.isSome

/-- The error entry an indexed catalog entry would contribute, given the
outcome of its `process_single_guide` call. -/
def errorOf (run : Nat → Except String Nat) (p : Nat × GuideSummary) : Option ErrEntry :=
  match p.2.guideid with
  | some gid =>
    match run gid with
    | .error e => some ⟨gid, p.2.title, e⟩
    | .ok _ => none
  | none => none

/-- With no pause signal ever present, the loop visits every remaining index
in order, attempts exactly the entries that carry an id, accumulates exactly
the failing entries' error records, and returns the completed summary built
from its final counters. -/
theorem sagaLoop_no_pause (run : Nat → Except String Nat) (pause : Nat → Bool)
    (total : Nat) (hpause : ∀ j, pause j = false) :
    ∀ (l : List (Nat × GuideSummary)) (st : LoopState),
      (sagaLoop run pause total l st).2.visited = st.visited ++ l.map Prod.fst ∧
      (sagaLoop run pause total l st).2.attempted =
        st.attempted ++ (l.filter (fun p => hasId p.2)).map Prod.fst ∧
      (sagaLoop run pause total l st).2.errors = st.errors ++ l.filterMap (errorOf run) ∧
      (sagaLoop run pause total l st).1 =
        .completed (sagaLoop run pause total l st).2.processed
          (sagaLoop run pause total l st).2.errors.length
          (sagaLoop run pause total l st).2.total_chunks
          (sagaLoop run pause total l st).2.errors := by
  intro l
  induction l with
  | nil =>
    intro st
    refine ⟨by simp [sagaLoop], by simp [sagaLoop], by simp [sagaLoop], by simp [sagaLoop]⟩
  | cons p rest ih =>
    obtain ⟨i, g⟩ := p
    intro st
    match hg : g.guideid with
    | none =>
      obtain ⟨ih1, ih2, ih3, ih4⟩ := ih { st with visited := st.visited ++ [i] }
      refine ⟨?_, ?_, ?_, ?_⟩ <;>
        simp [sagaLoop, hg, ih1, ih2, ih3, ih4, errorOf, hasId]
    | some gid =>
      match hrun : run gid with
      | .ok n =>
        obtain ⟨ih1, ih2, ih3, ih4⟩ := ih
          { st with visited := st.visited ++ [i], processed := st.processed + 1,
                    total_chunks := st.total_chunks + n,
                    attempted := st.attempted ++ [i],
                    events := st.events ++
                      [.processing gid (st.processed + 1) (st.total_chunks + n) total] }
        refine ⟨?_, ?_, ?_, ?_⟩ <;>
          simp [sagaLoop, hg, hrun, hpause, ih1, ih2, ih3, ih4, errorOf, hasId]
      | .error e =>
        obtain ⟨ih1, ih2, ih3, ih4⟩ := ih
          { st with visited := st.visited ++ [i],
                    errors := st.errors ++ [⟨gid, g.title, e⟩],
                    attempted := st.attempted ++ [i],
                    events := st.events ++
                      [.errored gid st.processed (st.errors.length + 1)] }
        refine ⟨?_, ?_, ?_, ?_⟩ <;>
          simp [sagaLoop, hg, hrun, hpause, ih1, ih2, ih3, ih4, errorOf, hasId]

/-- Dropping from an indexed list shifts the starting index. -/
theorem enumFrom_drop {α : Type} :
    ∀ (l : List α) (n N : Nat), (List.enumFrom n l).drop N = List.enumFrom (n + N) (l.drop N) := by
  intro l
  induction l with
  | nil => intro n N; simp [List.enumFrom]
  | cons a t ih =>
    intro n N
    match N with
    | 0 => simp [List.enumFrom]
    | N + 1 =>
      simp only [List.enumFrom, List.drop_succ_cons]
      rw [ih (n + 1) N]
      congr 1
      omega

/-- The indices of an indexed list are the consecutive range starting at the
initial counter. -/
theorem enumFrom_map_fst {α : Type} :
    ∀ (l : List α) (n : Nat), (List.enumFrom n l).map Prod.fst = List.range' n l.length := by
  intro l
  induction l with
  | nil => intro n; rfl
  | cons a t ih =>
    intro n
    simp only [List.enumFrom, List.map_cons, List.length_cons, List.range'_succ]
    rw [ih (n + 1)]

/-- Every member of an indexed list has its index in the covered window and
its value in the underlying list. -/
theorem mem_enumFrom_bounds {α : Type} :
    ∀ (l : List α) (n : Nat) (p : Nat × α), p ∈ List.enumFrom n l →
      n ≤ p.1 ∧ p.1 < n + l.length ∧ p.2 ∈ l := by
  intro l
  induction l with
  | nil => intro n p hp; simp [List.enumFrom] at hp
  | cons a t ih =>
    intro n p hp
    simp only [List.enumFrom, List.mem_cons] at hp
    rcases hp with rfl | hp
    · refine ⟨Nat.le_refl n, by simp, by simp⟩
    · obtain ⟨h1, h2, h3⟩ := ih (n + 1) p hp
      refine ⟨by omega, by simp; omega, by simp [h3]⟩

/-- Looking up an element at an index puts the indexed pair in the indexed
list. -/
theorem getElem?_mem_enumFrom {α : Type} :
    ∀ (l : List α) (j n : Nat) (a : α), l[j]? = some a → (n + j, a) ∈ List.enumFrom n l := by
  intro l
  induction l with
  | nil => intro j n a h; simp at h
  | cons b t ih =>
    intro j n a h
    match j with
    | 0 =>
      simp at h
      simp [List.enumFrom, h]
    | j + 1 =>
      simp only [List.getElem?_cons_succ] at h
      have := ih j (n + 1) a h
      simp only [List.enumFrom, List.mem_cons]
      right
      have harith : n + 1 + j = n + (j + 1) := by omega
      rw [harith] at this
      exact this

/-- C3: with no pause signal present, running the saga with
`resume_offset = N ≤ total` visits exactly the catalog indices `[N, total)`,
in the original catalog order, never an index below `N`, and attempts
precisely the visited entries that carry a guide id. -/
theorem saga_resume_window (guides : List GuideSummary) (run : Nat → Except String Nat)
    (pause : Nat → Bool) (N : Nat) (hpause : ∀ j, pause j = false)
    (hN : N ≤ guides.length) :
    (rag_ingest_site guides run pause N).2.visited = List.range' N (guides.length - N) ∧
    (∀ j ∈ (rag_ingest_site guides run pause N).2.visited, N ≤ j) ∧
    (rag_ingest_site guides run pause N).2.attempted =
      ((guides.enum.drop N).filter (fun p => hasId p.2)).map Prod.fst := by
  obtain ⟨h1, h2, _, _⟩ := sagaLoop_no_pause run pause guides.length hpause
    (guides.enum.drop N) (initState guides.length)
  have hdrop : guides.enum.drop N = List.enumFrom N (guides.drop N) := by
    have := enumFrom_drop guides 0 N
    simpa [List.enum] using this
  have hfst : (guides.enum.drop N).map Prod.fst = List.range' N (guides.length - N) := by
    rw [hdrop, enumFrom_map_fst, List.length_drop]
  refine ⟨?_, ?_, ?_⟩
  · rw [rag_ingest_site, h1, hfst]
    simp [initState]
  · intro j hj
    rw [rag_ingest_site, h1] at hj
    simp only [initState, List.nil_append] at hj
    rw [hfst] at hj
    have := List.mem_range'_1.mp hj
    omega
  · rw [rag_ingest_site, h2]
    simp [initState]

/-- Witness for C3: a three-guide catalog resumed at offset 1 visits exactly
indices 1 and 2. -/
theorem saga_resume_window_witness :
    (∀ j, (fun _ : Nat => false) j = false) ∧ 1 ≤ ([⟨some 10, "a"⟩, ⟨some 11, "b"⟩,
      ⟨some 12, "c"⟩] : List GuideSummary).length ∧
    ((rag_ingest_site [⟨some 10, "a"⟩, ⟨some 11, "b"⟩, ⟨some 12, "c"⟩]
        (fun _ => .ok 1) (fun _ => false) 1).2.visited =
      List.range' 1 (([⟨some 10, "a"⟩, ⟨some 11, "b"⟩, ⟨some 12, "c"⟩] :
        List GuideSummary).length - 1) ∧
     (∀ j ∈ (rag_ingest_site [⟨some 10, "a"⟩, ⟨some 11, "b"⟩, ⟨some 12, "c"⟩]
        (fun _ => .ok 1) (fun _ => false) 1).2.visited, 1 ≤ j) ∧
     (rag_ingest_site [⟨some 10, "a"⟩, ⟨some 11, "b"⟩, ⟨some 12, "c"⟩]
        (fun _ => .ok 1) (fun _ => false) 1).2.attempted =
      ((([⟨some 10, "a"⟩, ⟨some 11, "b"⟩, ⟨some 12, "c"⟩] :
        List GuideSummary).enum.drop 1).filter (fun p => hasId p.2)).map Prod.fst) :=
  ⟨fun _ => rfl, by decide,
   saga_resume_window [⟨some 10, "a"⟩, ⟨some 11, "b"⟩, ⟨some 12, "c"⟩]
     (fun _ => .ok 1) (fun _ => false) 1 (fun _ => rfl) (by decide)⟩

/-- C5: with no pause signal present, if the guide at catalog index `i`
carries id `gid` and its `process_single_guide` call fails with error `e`,
then the saga records `{guide_id, title, error}` in its error list, still
visits every catalog index (in particular all of `i+1 .. total-1`), still
attempts every later guide that carries an id, and returns the completed
summary whose `failed_guides` equals the error-list length, which counts this
failure. -/
theorem saga_continues_after_failure (guides : List GuideSummary)
    (run : Nat → Except String Nat) (pause : Nat → Bool)
    (hpause : ∀ j, pause j = false)
    (i : Nat) (g : GuideSummary) (hg : guides[i]? = some g)
    (gid : Nat) (hgid : g.guideid = some gid)
    (e : String) (herr : run gid = .error e) :
    (⟨gid, g.title, e⟩ : ErrEntry) ∈ (rag_ingest_site guides run pause 0).2.errors ∧
    (rag_ingest_site guides run pause 0).2.visited = List.range' 0 guides.length ∧
    (∀ j g' gid', i < j → guides[j]? = some g' → g'.guideid = some gid' →
      j ∈ (rag_ingest_site guides run pause 0).2.attempted) ∧
    (rag_ingest_site guides run pause 0).1 =
      .completed (rag_ingest_site guides run pause 0).2.processed
        (rag_ingest_site guides run pause 0).2.errors.length
        (rag_ingest_site guides run pause 0).2.total_chunks
        (rag_ingest_site guides run pause 0).2.errors ∧
    0 < (rag_ingest_site guides run pause 0).2.errors.length := by
  obtain ⟨h1, h2, h3, h4⟩ := sagaLoop_no_pause run pause guides.length hpause
    (guides.enum.drop 0) (initState guides.length)
  have hdrop0 : guides.enum.drop 0 = List.enumFrom 0 guides := by
    simp [List.enum]
  have hmem : (i, g) ∈ List.enumFrom 0 guides := by
    have := getElem?_mem_enumFrom guides i 0 g hg
    simpa using this
  have herrmem : (⟨gid, g.title, e⟩ : ErrEntry) ∈
      (rag_ingest_site guides run pause 0).2.errors := by
    rw [rag_ingest_site, h3, hdrop0]
    simp only [initState, List.nil_append]
    exact List.mem_filterMap.mpr ⟨(i, g), hmem, by simp [errorOf, hgid, herr]⟩
  refine ⟨herrmem, ?_, ?_, ?_, ?_⟩
  · rw [rag_ingest_site, h1, hdrop0, enumFrom_map_fst]
    simp [initState]
  · intro j g' gid' _ hg' hgid'
    rw [rag_ingest_site, h2, hdrop0]
    simp only [initState, List.nil_append]
    refine List.mem_map.mpr ⟨(j, g'), ?_, rfl⟩
    refine List.mem_filter.mpr ⟨?_, ?_⟩
    · have := getElem?_mem_enumFrom guides j 0 g' hg'
      simpa using this
    · simp [hasId, hgid']
  · exact h4
  · exact List.length_pos.mpr (List.ne_nil_of_mem herrmem)

/-- Witness for C5: in a three-guide catalog the middle guide fails; its error
is recorded and the run still completes over all indices. -/
theorem saga_continues_after_failure_witness :
    ((⟨2, "b", "boom"⟩ : ErrEntry) ∈
      (rag_ingest_site [⟨some 1, "a"⟩, ⟨some 2, "b"⟩, ⟨some 3, "c"⟩]
        (fun gid => if gid = 2 then .error "boom" else .ok 1) (fun _ => false) 0).2.errors ∧
     (rag_ingest_site [⟨some 1, "a"⟩, ⟨some 2, "b"⟩, ⟨some 3, "c"⟩]
        (fun gid => if gid = 2 then .error "boom" else .ok 1) (fun _ => false) 0).2.visited =
       List.range' 0 ([⟨some 1, "a"⟩, ⟨some 2, "b"⟩, ⟨some 3, "c"⟩] :
         List GuideSummary).length ∧
     (∀ j g' gid', 1 < j →
       ([⟨some 1, "a"⟩, ⟨some 2, "b"⟩, ⟨some 3, "c"⟩] : List GuideSummary)[j]? = some g' →
       g'.guideid = some gid' →
       j ∈ (rag_ingest_site [⟨some 1, "a"⟩, ⟨some 2, "b"⟩, ⟨some 3, "c"⟩]
         (fun gid => if gid = 2 then .error "boom" else .ok 1) (fun _ => false) 0).2.attempted) ∧
     (rag_ingest_site [⟨some 1, "a"⟩, ⟨some 2, "b"⟩, ⟨some 3, "c"⟩]
        (fun gid => if gid = 2 then .error "boom" else .ok 1) (fun _ => false) 0).1 =
       .completed
         (rag_ingest_site [⟨some 1, "a"⟩, ⟨some 2, "b"⟩, ⟨some 3, "c"⟩]
           (fun gid => if gid = 2 then .error "boom" else .ok 1) (fun _ => false) 0).2.processed
         (rag_ingest_site [⟨some 1, "a"⟩, ⟨some 2, "b"⟩, ⟨some 3, "c"⟩]
           (fun gid => if gid = 2 then .error "boom" else .ok 1) (fun _ => false) 0).2.errors.length
         (rag_ingest_site [⟨some 1, "a"⟩, ⟨some 2, "b"⟩, ⟨some 3, "c"⟩]
           (fun gid => if gid = 2 then .error "boom" else .ok 1) (fun _ => false) 0).2.total_chunks
         (rag_ingest_site [⟨some 1, "a"⟩, ⟨some 2, "b"⟩, ⟨some 3, "c"⟩]
           (fun gid => if gid = 2 then .error "boom" else .ok 1) (fun _ => false) 0).2.errors ∧
     0 < (rag_ingest_site [⟨some 1, "a"⟩, ⟨some 2, "b"⟩, ⟨some 3, "c"⟩]
        (fun gid => if gid = 2 then .error "boom" else .ok 1) (fun _ => false) 0).2.errors.length) :=
  saga_continues_after_failure [⟨some 1, "a"⟩, ⟨some 2, "b"⟩, ⟨some 3, "c"⟩]
    (fun gid => if gid = 2 then .error "boom" else .ok 1) (fun _ => false)
    (fun _ => rfl) 1 ⟨some 2, "b"⟩ (by decide) 2 rfl "boom" rfl

/-- Taking a prefix of an indexed list indexes the prefix. -/
theorem enumFrom_take {α : Type} :
    ∀ (l : List α) (n N : Nat), (List.enumFrom n l).take N = List.enumFrom n (l.take N) := by
  intro l
  induction l with
  | nil => intro n N; simp [List.enumFrom]
  | cons a t ih =>
    intro n N
    match N with
    | 0 => simp [List.enumFrom]
    | N + 1 =>
      simp only [List.enumFrom, List.take_succ_cons]
      rw [ih (n + 1) N]

/-- The saga consults the pause oracle only at eligible checkpoints: two
oracles that agree on every index `i` with `i > 0` and `i % 5 == 0` drive the
loop to identical results. -/
theorem sagaLoop_pause_agree (run : Nat → Except String Nat) (pauseA pauseB : Nat → Bool)
    (total : Nat) (hagree : ∀ i, 0 < i → i % 5 = 0 → pauseA i = pauseB i) :
    ∀ (l : List (Nat × GuideSummary)) (st : LoopState),
      sagaLoop run pauseA total l st = sagaLoop run pauseB total l st := by
  intro l
  induction l with
  | nil => intro st; rfl
  | cons p rest ih =>
    obtain ⟨i, g⟩ := p
    intro st
    match hg : g.guideid with
    | none => simp [sagaLoop, hg, ih]
    | some gid =>
      have hiff : (0 < i ∧ i % 5 = 0 ∧ pauseA i = true) ↔
          (0 < i ∧ i % 5 = 0 ∧ pauseB i = true) := by
        constructor
        · rintro ⟨a, b, c⟩
          exact ⟨a, b, by rw [← hagree i a b]; exact c⟩
        · rintro ⟨a, b, c⟩
          exact ⟨a, b, by rw [hagree i a b]; exact c⟩
      by_cases hcond : 0 < i ∧ i % 5 = 0 ∧ pauseB i = true
      · have hcondA : 0 < i ∧ i % 5 = 0 ∧ pauseA i = true := hiff.mpr hcond
        simp [sagaLoop, hg, hcondA, hcond]
      · have hcondA : ¬(0 < i ∧ i % 5 = 0 ∧ pauseA i = true) := fun hA => hcond (hiff.mp hA)
        match hrun : run gid with
        | .ok n => simp [sagaLoop, hg, hcondA, hcond, hrun, ih]
        | .error e => simp [sagaLoop, hg, hcondA, hcond, hrun, ih]

/-- When the pause signal is first observable at eligible checkpoint `k` and
the entry at catalog index `k` carries an id, the loop runs through the
entries before `k`, then returns the paused state carrying `k` as the resume
offset — attempting only id-carrying entries before `k` and visiting nothing
past `k`. -/
theorem sagaLoop_pauses (run : Nat → Except String Nat) (pause : Nat → Bool) (total k : Nat)
    (g : GuideSummary) (gid : Nat) (hgid : g.guideid = some gid)
    (hk0 : 0 < k) (hk5 : k % 5 = 0) (hpk : pause k = true)
    (hlow : ∀ j, j < k → pause j = false) :
    ∀ (l₁ l₂ : List (Nat × GuideSummary)) (st : LoopState), (∀ p ∈ l₁, p.1 < k) →
      (sagaLoop run pause total (l₁ ++ (k, g) :: l₂) st).1 =
        .paused (sagaLoop run pause total (l₁ ++ (k, g) :: l₂) st).2.processed k total ∧
      (sagaLoop run pause total (l₁ ++ (k, g) :: l₂) st).2.attempted =
        st.attempted ++ (l₁.filter (fun p => hasId p.2)).map Prod.fst ∧
      (sagaLoop run pause total (l₁ ++ (k, g) :: l₂) st).2.visited =
        st.visited ++ l₁.map Prod.fst ++ [k] := by
  intro l₁
  induction l₁ with
  | nil =>
    intro l₂ st _
    refine ⟨?_, ?_, ?_⟩ <;>
      simp [sagaLoop, hgid, hk0, hk5, hpk]
  | cons p rest ih =>
    obtain ⟨i, h⟩ := p
    intro l₂ st hbound
    have hik : i < k := hbound (i, h) (by simp)
    have hpi : pause i = false := hlow i hik
    have hrest : ∀ p ∈ rest, p.1 < k := fun p hp => hbound p (by simp [hp])
    match hh : h.guideid with
    | none =>
      obtain ⟨ih1, ih2, ih3⟩ := ih l₂ { st with visited := st.visited ++ [i] } hrest
      refine ⟨?_, ?_, ?_⟩ <;>
        simp [sagaLoop, hh, hpi, ih1, ih2, ih3, hasId]
    | some gid' =>
      match hrun : run gid' with
      | .ok n =>
        obtain ⟨ih1, ih2, ih3⟩ := ih l₂
          { st with visited := st.visited ++ [i], processed := st.processed + 1,
                    total_chunks := st.total_chunks + n,
                    attempted := st.attempted ++ [i],
                    events := st.events ++
                      [.processing gid' (st.processed + 1) (st.total_chunks + n) total] } hrest
        refine ⟨?_, ?_, ?_⟩ <;>
          simp [sagaLoop, hh, hpi, hrun, ih1, ih2, ih3, hasId]
      | .error e =>
        obtain ⟨ih1, ih2, ih3⟩ := ih l₂
          { st with visited := st.visited ++ [i],
                    errors := st.errors ++ [⟨gid', h.title, e⟩],
                    attempted := st.attempted ++ [i],
                    events := st.events ++
                      [.errored gid' st.processed (st.errors.length + 1)] } hrest
        refine ⟨?_, ?_, ?_⟩ <;>
          simp [sagaLoop, hh, hpi, hrun, ih1, ih2, ih3, hasId]

/-- C6: the saga consults the pause oracle only at iterations `i` with
`i > 0` and `i % 5 == 0` (first conjunct: the result only depends on the
oracle at those indices); on a 12-guide catalog with a pause signal first
observable at checkpoint 5, the fresh run returns
`{status: paused, resume_offset: 5}`, having attempted only guides at indices
below 5, and the subsequent run with `resume_offset = 5` attempts exactly
indices 5..11. -/
theorem saga_pause_at_checkpoint (guides : List GuideSummary)
    (run : Nat → Except String Nat) (pauseA pauseB pauseS : Nat → Bool)
    (hagree : ∀ i, 0 < i → i % 5 = 0 → pauseA i = pauseB i)
    (hlen : guides.length = 12)
    (hids : ∀ g ∈ guides, hasId g = true)
    (hlow : ∀ j, j < 5 → pauseS j = false)
    (hp5 : pauseS 5 = true) :
    rag_ingest_site guides run pauseA 0 = rag_ingest_site guides run pauseB 0 ∧
    (rag_ingest_site guides run pauseS 0).1 =
      .paused (rag_ingest_site guides run pauseS 0).2.processed 5 12 ∧
    (∀ j ∈ (rag_ingest_site guides run pauseS 0).2.attempted, j < 5) ∧
    (rag_ingest_site guides run (fun _ => false) 5).2.attempted = List.range' 5 7 := by
  have hdrop5 : guides.enum.drop 5 = List.enumFrom 5 (guides.drop 5) := by
    have := enumFrom_drop guides 0 5
    simpa [List.enum] using this
  have hlen5 : (guides.drop 5).length = 7 := by
    rw [List.length_drop, hlen]
  have hne : guides.drop 5 ≠ [] := by
    intro h
    rw [h] at hlen5
    simp at hlen5
  obtain ⟨g5, rest5, hg5⟩ := List.exists_cons_of_ne_nil hne
  have hg5mem : g5 ∈ guides := by
    refine List.mem_of_mem_drop (l := guides) (n := 5) ?_
    rw [hg5]
    simp
  obtain ⟨gid5, hgid5⟩ := Option.isSome_iff_exists.mp
    (by simpa [hasId] using hids g5 hg5mem)
  have hsplit : guides.enum.drop 0 =
      guides.enum.take 5 ++ ((5, g5) :: List.enumFrom 6 rest5) := by
    have hdd : guides.enum.drop 5 = (5, g5) :: List.enumFrom 6 rest5 := by
      rw [hdrop5, hg5]
      simp [List.enumFrom]
    rw [List.drop_zero, ← hdd, List.take_append_drop]
  have hbound : ∀ p ∈ guides.enum.take 5, p.1 < 5 := by
    intro p hp
    have htake : guides.enum.take 5 = List.enumFrom 0 (guides.take 5) := by
      have := enumFrom_take guides 0 5
      simpa [List.enum] using this
    rw [htake] at hp
    obtain ⟨_, hlt, _⟩ := mem_enumFrom_bounds (guides.take 5) 0 p hp
    have hle : (guides.take 5).length ≤ 5 := by
      simp [List.length_take]
    omega
  obtain ⟨hp1, hp2, hp3⟩ := sagaLoop_pauses run pauseS guides.length 5 g5 gid5 hgid5
    (by omega) (by omega) hp5 hlow (guides.enum.take 5) (List.enumFrom 6 rest5)
    (initState guides.length) hbound
  refine ⟨?_, ?_, ?_, ?_⟩
  · unfold rag_ingest_site
    exact sagaLoop_pause_agree run pauseA pauseB guides.length hagree _ _
  · rw [rag_ingest_site, hsplit, hp1, hlen]
  · intro j hj
    rw [rag_ingest_site, hsplit, hp2] at hj
    simp only [initState, List.nil_append] at hj
    obtain ⟨p, hpf, rfl⟩ := List.mem_map.mp hj
    exact hbound p (List.mem_of_mem_filter hpf)
  · obtain ⟨_, h2, _, _⟩ := sagaLoop_no_pause run (fun _ => false) guides.length
      (fun _ => rfl) (guides.enum.drop 5) (initState guides.length)
    rw [rag_ingest_site, h2]
    simp only [initState, List.nil_append]
    have hall : ∀ p ∈ guides.enum.drop 5, hasId p.2 = true := by
      intro p hp
      rw [hdrop5] at hp
      obtain ⟨_, _, hmem⟩ := mem_enumFrom_bounds (guides.drop 5) 5 p hp
      exact hids p.2 (List.mem_of_mem_drop hmem)
    rw [List.filter_eq_self.mpr hall, hdrop5, enumFrom_map_fst, hlen5]

/-- A concrete 12-guide catalog. -/
def catalog12 : List GuideSummary :=
  [⟨some 1, "g1"⟩, ⟨some 2, "g2"⟩, ⟨some 3, "g3"⟩, ⟨some 4, "g4"⟩,
   ⟨some 5, "g5"⟩, ⟨some 6, "g6"⟩, ⟨some 7, "g7"⟩, ⟨some 8, "g8"⟩,
   ⟨some 9, "g9"⟩, ⟨some 10, "g10"⟩, ⟨some 11, "g11"⟩, ⟨some 12, "g12"⟩]

/-- Witness for C6: the 12-guide catalog with the pause signal present exactly
from checkpoint 5 on. -/
theorem saga_pause_at_checkpoint_witness :
    rag_ingest_site catalog12 (fun _ => .ok 1) (fun _ => false) 0 =
      rag_ingest_site catalog12 (fun _ => .ok 1) (fun _ => false) 0 ∧
    (rag_ingest_site catalog12 (fun _ => .ok 1) (fun i => 5 ≤ i) 0).1 =
      .paused (rag_ingest_site catalog12 (fun _ => .ok 1) (fun i => 5 ≤ i) 0).2.processed 5 12 ∧
    (∀ j ∈ (rag_ingest_site catalog12 (fun _ => .ok 1) (fun i => 5 ≤ i) 0).2.attempted,
      j < 5) ∧
    (rag_ingest_site catalog12 (fun _ => .ok 1) (fun _ => false) 5).2.attempted =
      List.range' 5 7 :=
  saga_pause_at_checkpoint catalog12 (fun _ => .ok 1) (fun _ => false) (fun _ => false)
    (fun i => 5 ≤ i) (fun _ _ _ => rfl) (by decide) (by decide) (by decide) (by decide)

/-! ## C10: the progress percentage never divides by zero -/

/-- The `total_guides` divisor of the `percentage` computation
(`round((processed / total_guides) * 100, 1)`, src/main.py line 289) carried
by a `processing` progress event; `none` for every other event, which performs
no division. -/
def processingTotal : SagaEv → Option Nat
  | .processing _ _ _ t => some t
  | _ => none

/-- The divisor of a `processing` event's percentage computation is positive. -/
def ProcessingTotalPos (ev : SagaEv) : Prop :=
  ∀ t, processingTotal ev = some t → 0 < t

/-- Every event the loop emits satisfies `ProcessingTotalPos`, provided the
incoming events do and the catalog total is positive whenever any guide
remains to be processed (a `processing` event is only emitted from inside the
loop body). -/
theorem sagaLoop_processing_pos (run : Nat → Except String Nat) (pause : Nat → Bool)
    (total : Nat) :
    ∀ (l : List (Nat × GuideSummary)) (st : LoopState),
      (∀ ev ∈ st.events, ProcessingTotalPos ev) → (l ≠ [] → 0 < total) →
      ∀ ev ∈ (sagaLoop run pause total l st).2.events, ProcessingTotalPos ev := by
  intro l
  induction l with
  | nil =>
    intro st hst _ ev hev
    simp only [sagaLoop] at hev
    rcases List.mem_append.mp hev with h | h
    · exact hst ev h
    · rcases List.mem_singleton.mp h with rfl
      intro t ht
      simp [processingTotal] at ht
  | cons p rest ih =>
    obtain ⟨i, g⟩ := p
    intro st hst htot
    have hpos : 0 < total := htot (by simp)
    match hg : g.guideid with
    | none =>
      intro ev hev
      rw [show sagaLoop run pause total ((i, g) :: rest) st =
          sagaLoop run pause total rest { st with visited := st.visited ++ [i] } from by
        simp [sagaLoop, hg]] at hev
      exact ih { st with visited := st.visited ++ [i] } hst (fun _ => hpos) ev hev
    | some gid =>
      by_cases hcond : 0 < i ∧ i % 5 = 0 ∧ pause i = true
      · intro ev hev
        rw [show sagaLoop run pause total ((i, g) :: rest) st =
            (.paused st.processed i total,
             { st with visited := st.visited ++ [i],
                       events := st.events ++ [.pausedEv st.processed i total] }) from by
          simp [sagaLoop, hg, hcond]] at hev
        simp only at hev
        rcases List.mem_append.mp hev with h | h
        · exact hst ev h
        · rcases List.mem_singleton.mp h with rfl
          intro t ht
          simp [processingTotal] at ht
      · match hrun : run gid with
        | .ok n =>
          intro ev hev
          rw [show sagaLoop run pause total ((i, g) :: rest) st =
              sagaLoop run pause total rest
                { st with visited := st.visited ++ [i], processed := st.processed + 1,
                          total_chunks := st.total_chunks + n,
                          attempted := st.attempted ++ [i],
                          events := st.events ++
                            [.processing gid (st.processed + 1) (st.total_chunks + n) total] }
              from by simp [sagaLoop, hg, hcond, hrun]] at hev
          refine ih _ ?_ (fun _ => hpos) ev hev
          intro ev' hev'
          rcases List.mem_append.mp hev' with h | h
          · exact hst ev' h
          · rcases List.mem_singleton.mp h with rfl
            intro t ht
            simp only [processingTotal, Option.some.injEq] at ht
            omega
        | .error e =>
          intro ev hev
          rw [show sagaLoop run pause total ((i, g) :: rest) st =
              sagaLoop run pause total rest
                { st with visited := st.visited ++ [i],
                          errors := st.errors ++ [⟨gid, g.title, e⟩],
                          attempted := st.attempted ++ [i],
                          events := st.events ++
                            [.errored gid st.processed (st.errors.length + 1)] }
              from by simp [sagaLoop, hg, hcond, hrun]] at hev
          refine ih _ ?_ (fun _ => hpos) ev hev
          intro ev' hev'
          rcases List.mem_append.mp hev' with h | h
          · exact hst ev' h
          · rcases List.mem_singleton.mp h with rfl
            intro t ht
            simp [processingTotal] at ht

/-- C10: in any saga run, every emitted `processing` progress event carries a
positive `total_guides`, so the percentage computation
`round((processed / total_guides) * 100, 1)` never divides by zero — it is
executed only inside the loop over the catalog, which requires at least one
guide. -/
theorem progress_percentage_divisor_positive (guides : List GuideSummary)
    (run : Nat → Except String Nat) (pause : Nat → Bool) (resume_offset : Nat) :
    ∀ ev ∈ (rag_ingest_site guides run pause resume_offset).2.events,
      ProcessingTotalPos ev := by
  unfold rag_ingest_site
  refine sagaLoop_processing_pos run pause guides.length _ (initState guides.length) ?_ ?_
  · intro ev hev
    simp only [initState, List.mem_singleton] at hev
    subst hev
    intro t ht
    simp [processingTotal] at ht
  · intro hne
    by_contra h0
    have hlen0 : guides.length = 0 := by omega
    have : guides.enum = [] := by
      have := List.enum_length (l := guides)
      exact List.eq_nil_of_length_eq_zero (by rw [this, hlen0])
    rw [this] at hne
    simp at hne

/-- Witness for C10: a one-guide catalog emits a `processing` event whose
`total_guides` divisor is positive. -/
theorem progress_percentage_divisor_positive_witness :
    SagaEv.processing 3 1 2 1 ∈
      (rag_ingest_site [⟨some 3, "G"⟩] (fun _ => .ok 2) (fun _ => false) 0).2.events ∧
    ProcessingTotalPos (SagaEv.processing 3 1 2 1) :=
  ⟨by decide,
   progress_percentage_divisor_positive [⟨some 3, "G"⟩] (fun _ => .ok 2) (fun _ => false) 0
     (SagaEv.processing 3 1 2 1) (by decide)⟩
